import Mathlib

/-!
Verification of the adder-dyn compiler (`src/main.rs`): a one-register
compiler from the expression language `EXPR := INTEGER | (add1 EXPR) |
(sub1 EXPR)` to x86-64 instructions, together with an assembly-text
renderer, a reference interpreter, and a model of the JIT code buffer
with its alter operation.

Machine integers are modelled as `Int` with explicit twos-complement
wrapping (`wrap32` for the Rust `i32`, `wrap64` for the 64-bit `rax`
register), applied exactly where the Rust/x86 semantics wrap.
-/

/-- Twos-complement wrap into the signed 32-bit range
`[-2147483648, 2147483648)`; this is the value an `i32` holds after a
wrapping arithmetic operation, and the signed reading of the low 32 bits
of a 64-bit register. -/
def wrap32 (n : Int) : Int :=
  (n + 2147483648) % 4294967296 - 2147483648

/-- Twos-complement wrap into the signed 64-bit range: the value of the
64-bit register `rax` after an `add` or `sub`. -/
def wrap64 (n : Int) : Int :=
  (n + 9223372036854775808) % 18446744073709551616 - 9223372036854775808

/-- Mirror of `enum Reg { RAX }` from `src/main.rs`. -/
inductive Reg where
  | RAX : Reg
deriving DecidableEq, Repr

/-- Mirror of `enum Val { Reg(Reg), Imm(i32) }` from `src/main.rs`. The
payload of `Imm` is an `i32`, modelled as an `Int`; the 32-bit range
invariant is tracked where it matters. -/
inductive Val where
  | Reg : Reg → Val
  | Imm : Int → Val
deriving DecidableEq, Repr

/-- Mirror of `enum Instr { IMov(Val, Val), IAdd(Val, Val),
ISub(Val, Val) }` from `src/main.rs`. -/
inductive Instr where
  | IMov : Val → Val → Instr
  | IAdd : Val → Val → Instr
  | ISub : Val → Val → Instr
deriving DecidableEq, Repr

/-- Mirror of `enum Expr { Num(i32), Add1(Box<Expr>), Sub1(Box<Expr>) }`
from `src/main.rs`. The `i32` payload of `Num` is modelled as an `Int`;
`Expr.wf` states the 32-bit range invariant that the Rust type
enforces. -/
inductive Expr where
  | Num : Int → Expr
  | Add1 : Expr → Expr
  | Sub1 : Expr → Expr
deriving DecidableEq, Repr

/-- Well-formedness: every literal of the expression fits in a signed
32-bit integer, as the Rust type `i32` guarantees for `Expr::Num`. -/
def Expr.wf : Expr → Prop
  | .Num n => -2147483648 ≤ n ∧ n < 2147483648
  | .Add1 e => e.wf
  | .Sub1 e => e.wf

instance instDecidableWf : (e : Expr) → Decidable e.wf
  | .Num _ => by unfold Expr.wf; infer_instance
  | .Add1 e => by unfold Expr.wf; exact instDecidableWf e
  | .Sub1 e => by unfold Expr.wf; exact instDecidableWf e

/-- Mirror of `compile_expr_instrs` from `src/main.rs`: pushes the
instructions for `e` onto the end of the accumulating vector `cmds`. -/
def compile_expr_instrs : Expr → List Instr → List Instr
  | .Num n, cmds => cmds ++ [.IMov (.Reg .RAX) (.Imm n)]
  | .Add1 subexpr, cmds =>
      compile_expr_instrs subexpr cmds ++ [.IAdd (.Reg .RAX) (.Imm 1)]
  | .Sub1 subexpr, cmds =>
      compile_expr_instrs subexpr cmds ++ [.ISub (.Reg .RAX) (.Imm 1)]

/-- Mirror of `compile_to_instrs` from `src/main.rs`: runs
`compile_expr_instrs` on an empty vector. -/
def compile_to_instrs (e : Expr) : List Instr :=
  compile_expr_instrs e []

/-- Mirror of `interp` from `src/main.rs`. The Rust source computes
`1 + interp(subexpr)` and `interp(subexpr) - 1` in `i32` arithmetic,
which is twos-complement wrapping; the `wrap32` records exactly that. -/
def interp : Expr → Int
  | .Num n => n
  | .Add1 subexpr => wrap32 (1 + interp subexpr)
  | .Sub1 subexpr => wrap32 (interp subexpr - 1)

/-- Encoded x86-64 operations: the target of `instr_to_asm`, one
constructor per supported `dynasm!` arm. -/
inductive X64Op where
  | movRegImm : Reg → Int → X64Op
  | addRegImm : Reg → Int → X64Op
  | subRegImm : Reg → Int → X64Op
deriving DecidableEq, Repr

/-- Mirror of `instr_to_asm` from `src/main.rs`, at the level of which
x86-64 operation each instruction encodes to. The three supported
shapes match the three `dynasm!` arms (`mov`, `add`, `sub` of a 32-bit
immediate into a 64-bit register); the wildcard arm, which panics with
the message `Unknown instruction format`, is modelled as `none`. -/
def instr_to_asm : Instr → Option X64Op
  | .IMov (.Reg r) (.Imm n) => some (.movRegImm r n)
  | .IAdd (.Reg r) (.Imm n) => some (.addRegImm r n)
  | .ISub (.Reg r) (.Imm n) => some (.subRegImm r n)
  | _ => none

/-- Semantics of one encoded operation on the 64-bit accumulator `rax`:
`mov rax, imm32` sign-extends the immediate into the full register,
while `add` and `sub` are 64-bit wrapping arithmetic. -/
def stepOp : X64Op → Int → Int
  | .movRegImm .RAX n, _ => n
  | .addRegImm .RAX n, acc => wrap64 (acc + n)
  | .subRegImm .RAX n, acc => wrap64 (acc - n)

/-- One abstract instruction executed on the accumulator; `none` when
the machine-code emitter would panic on the shape. -/
def stepInstr (i : Instr) (acc : Int) : Option Int :=
  (instr_to_asm i).map (fun op => stepOp op acc)

/-- Execution of an instruction sequence in list order on the
accumulator. -/
def execInstrs : List Instr → Int → Option Int
  | [], acc => some acc
  | i :: rest, acc =>
    match stepInstr i acc with
    | none => none
    | some acc2 => execInstrs rest acc2

/-- One slot of the JIT code buffer: an encoded operation or the `ret`
that `main` appends after the compiled instructions. -/
inductive JInstr where
  | op : X64Op → JInstr
  | ret : JInstr
deriving DecidableEq, Repr

/-- Execution of a committed code buffer called as an
`extern "C" fn() -> i32`: operations run in order and, on reaching
`ret`, the low 32 bits of `rax` are returned read as a signed integer.
Running off the end of the buffer is undefined behaviour, modelled as
`none`. -/
def runJit : List JInstr → Int → Option Int
  | [], _ => none
  | .ret :: _, acc => some (wrap32 acc)
  | .op o :: rest, acc => runJit rest (stepOp o acc)

/-- Buffer contents that `main` commits before acquiring the entry
point: `instrs_to_asm` over the compiled instructions, followed by the
`dynasm!` of a single `ret`. `none` when any instruction would hit the
panic arm of `instr_to_asm`. -/
def mainBuffer (e : Expr) : Option (List JInstr) :=
  ((compile_to_instrs e).mapM instr_to_asm).map
    (fun ops => ops.map JInstr.op ++ [JInstr.ret])

/-- The `alter` block of `main`, generalised over the hard-coded value:
`dynasm!` writes `mov rax, K` then `ret` starting at offset 0 of the
existing buffer, leaving any later contents of the previous code in
place. -/
def alterBuffer (K : Int) (oldBuf : List JInstr) : List JInstr :=
  [JInstr.op (.movRegImm .RAX K), JInstr.ret] ++ oldBuf.drop 2

/-- Atoms of the `sexp` crate consumed by `parse_expr`: a string, a
64-bit integer, or a float. The float payload is never inspected by
`parse_expr`, so it is not carried. -/
inductive Atom where
  | S : String → Atom
  | I : Int → Atom
  | F : Atom
deriving DecidableEq, Repr

/-- The `Sexp` type of the `sexp` crate: an atom or a list. -/
inductive Sexp where
  | atom : Atom → Sexp
  | list : List Sexp → Sexp

/-- Failure modes of the syntax-tree builder, in the taxonomy of the
specification: `RangeError` models the panic inside
`i32::try_from(..).unwrap()` on an out-of-range integer atom, and
`SyntaxError` models the `panic!("parse error")` sites, carrying the
panic message. -/
inductive ParseErr where
  | RangeError : ParseErr
  | SyntaxError : String → ParseErr
deriving DecidableEq, Repr

/-- Mirror of `parse_expr` from `src/main.rs`: an integer atom in `i32`
range becomes `Num`, a two-element `add1` or `sub1` list recurses, and
every other shape panics with the fixed message `parse error`. -/
def parse_expr : Sexp → Except ParseErr Expr
  | .atom (.I n) =>
      if -2147483648 ≤ n ∧ n < 2147483648 then .ok (.Num n)
      else .error .RangeError
  | .list [.atom (.S op), e] =>
      if op = "add1" then (parse_expr e).map Expr.Add1
      else if op = "sub1" then (parse_expr e).map Expr.Sub1
      else .error (.SyntaxError "parse error")
  | .list _ => .error (.SyntaxError "parse error")
  | .atom _ => .error (.SyntaxError "parse error")

/-- The input shapes accepted at the top level of `parse_expr`: a bare
integer atom or a two-element list headed by `add1` or `sub1`. -/
def topShapeOK (s : Sexp) : Prop :=
  (∃ n, s = .atom (.I n)) ∨
  (∃ e, s = .list [.atom (.S "add1"), e]) ∨
  (∃ e, s = .list [.atom (.S "sub1"), e])

/-- Mirror of `val_to_str` from `src/main.rs`. -/
def val_to_str : Val → String
  | .Reg .RAX => "RAX"
  | .Imm n => "DWORD " ++ toString n

/-- Mirror of `instr_to_str` from `src/main.rs`. -/
def instr_to_str : Instr → String
  | .IMov v1 v2 => "mov " ++ val_to_str v1 ++ ", " ++ val_to_str v2
  | .ISub v1 v2 => "sub " ++ val_to_str v1 ++ ", " ++ val_to_str v2
  | .IAdd v1 v2 => "add " ++ val_to_str v1 ++ ", " ++ val_to_str v2

/-- Mirror of `instrs_to_str` from `src/main.rs`: one line per
instruction, joined with newlines. -/
def instrs_to_str (cmds : List Instr) : String :=
  String.intercalate "\n" (cmds.map instr_to_str)

/-- The `format!` template of `main` wrapping the instruction lines in
the compilation unit: section declaration, global export, entry label,
trailing `ret`. -/
def asm_program (result : String) : String :=
  "\nsection .text\nglobal our_code_starts_here\nour_code_starts_here:\n  "
    ++ result ++ "\n  ret\n"

/-- Whether a `Val` operand is the accumulator register. -/
def valIsRAX : Val → Bool
  | .Reg .RAX => true
  | .Imm _ => false

/-- Whether an instruction reads the accumulator: a `mov` reads only its
source, while `add` and `sub` read both their destination and their
source. -/
def readsRAX : Instr → Bool
  | .IMov _ src => valIsRAX src
  | .IAdd dst src => valIsRAX dst || valIsRAX src
  | .ISub dst src => valIsRAX dst || valIsRAX src

/-- Whether an instruction writes the accumulator: all three opcodes
write their destination. -/
def writesRAX : Instr → Bool
  | .IMov dst _ => valIsRAX dst
  | .IAdd dst _ => valIsRAX dst
  | .ISub dst _ => valIsRAX dst

/-- No instruction of the sequence reads the accumulator before some
earlier instruction of the sequence has written it. -/
def noReadBeforeWrite (l : List Instr) : Prop :=
  ∀ i instr, l.get? i = some instr → readsRAX instr = true →
    ∃ j w, j < i ∧ l.get? j = some w ∧ writesRAX w = true

/-- Whether an instruction is a `mov`. -/
def isMovInstr : Instr → Bool
  | .IMov _ _ => true
  | _ => false

/-- The instruction shapes the machine-code emitter supports: a register
destination with an immediate source, for each of the three opcodes. -/
def supportedShape : Instr → Bool
  | .IMov (.Reg _) (.Imm _) => true
  | .IAdd (.Reg _) (.Imm _) => true
  | .ISub (.Reg _) (.Imm _) => true
  | _ => false

/-! ### Helper lemmas -/

theorem compile_to_instrs_Num (n : Int) :
    compile_to_instrs (.Num n) = [.IMov (.Reg .RAX) (.Imm n)] := rfl

theorem compile_to_instrs_Add1 (e : Expr) :
    compile_to_instrs (.Add1 e) =
      compile_to_instrs e ++ [.IAdd (.Reg .RAX) (.Imm 1)] := rfl

theorem compile_to_instrs_Sub1 (e : Expr) :
    compile_to_instrs (.Sub1 e) =
      compile_to_instrs e ++ [.ISub (.Reg .RAX) (.Imm 1)] := rfl

theorem compile_expr_instrs_eq (e : Expr) (cmds : List Instr) :
    compile_expr_instrs e cmds = cmds ++ compile_to_instrs e := by
  induction e generalizing cmds with
  | Num n => rfl
  | Add1 e ih =>
      show compile_expr_instrs e cmds ++ [.IAdd (.Reg .RAX) (.Imm 1)]
          = cmds ++ compile_to_instrs (.Add1 e)
      rw [ih, List.append_assoc]
      rfl
  | Sub1 e ih =>
      show compile_expr_instrs e cmds ++ [.ISub (.Reg .RAX) (.Imm 1)]
          = cmds ++ compile_to_instrs (.Sub1 e)
      rw [ih, List.append_assoc]
      rfl

/-- Every compiled sequence is a `mov RAX, imm` followed by a run of
`add RAX, 1` and `sub RAX, 1` instructions. -/
theorem compile_shape (e : Expr) :
    ∃ n rest, compile_to_instrs e = .IMov (.Reg .RAX) (.Imm n) :: rest ∧
      ∀ i ∈ rest,
        i = .IAdd (.Reg .RAX) (.Imm 1) ∨ i = .ISub (.Reg .RAX) (.Imm 1) := by
  induction e with
  | Num n =>
      exact ⟨n, [], compile_to_instrs_Num n, by simp⟩
  | Add1 e ih =>
      obtain ⟨n, rest, heq, hall⟩ := ih
      refine ⟨n, rest ++ [.IAdd (.Reg .RAX) (.Imm 1)], ?_, ?_⟩
      · rw [compile_to_instrs_Add1, heq]
        rfl
      · intro i hi
        rcases List.mem_append.1 hi with h | h
        · exact hall i h
        · left; simpa using h
  | Sub1 e ih =>
      obtain ⟨n, rest, heq, hall⟩ := ih
      refine ⟨n, rest ++ [.ISub (.Reg .RAX) (.Imm 1)], ?_, ?_⟩
      · rw [compile_to_instrs_Sub1, heq]
        rfl
      · intro i hi
        rcases List.mem_append.1 hi with h | h
        · exact hall i h
        · right; simpa using h

theorem execInstrs_append (l1 l2 : List Instr) (acc : Int) :
    execInstrs (l1 ++ l2) acc =
      (execInstrs l1 acc).bind (fun a => execInstrs l2 a) := by
  induction l1 generalizing acc with
  | nil => simp [execInstrs]
  | cons i rest ih =>
      simp only [List.cons_append, execInstrs]
      cases stepInstr i acc with
      | none => simp
      | some a2 => simp [ih]

theorem wrap32_eq_self {n : Int} (h1 : -2147483648 ≤ n)
    (h2 : n < 2147483648) : wrap32 n = n := by
  unfold wrap32
  omega

theorem wrap32_wrap64_add_one (a : Int) :
    wrap32 (wrap64 (a + 1)) = wrap32 (1 + wrap32 a) := by
  unfold wrap32 wrap64
  omega

theorem wrap32_wrap64_sub_one (a : Int) :
    wrap32 (wrap64 (a - 1)) = wrap32 (wrap32 a - 1) := by
  unfold wrap32 wrap64
  omega

/-- Compiled code always executes, and the low 32 bits of the final
accumulator agree with the interpreter, from any initial accumulator. -/
theorem exec_compile :
    ∀ (e : Expr), ∀ (acc : Int), e.wf →
      ∃ a, execInstrs (compile_to_instrs e) acc = some a ∧
        wrap32 a = interp e := by
  intro e
  induction e with
  | Num n =>
      intro acc hwf
      exact ⟨n, by rw [compile_to_instrs_Num]; rfl,
        wrap32_eq_self hwf.1 hwf.2⟩
  | Add1 e ih =>
      intro acc hwf
      obtain ⟨a, ha, hwa⟩ := ih acc hwf
      refine ⟨wrap64 (a + 1), ?_, ?_⟩
      · rw [compile_to_instrs_Add1, execInstrs_append, ha]
        rfl
      · show wrap32 (wrap64 (a + 1)) = wrap32 (1 + interp e)
        rw [← hwa, wrap32_wrap64_add_one]
  | Sub1 e ih =>
      intro acc hwf
      obtain ⟨a, ha, hwa⟩ := ih acc hwf
      refine ⟨wrap64 (a - 1), ?_, ?_⟩
      · rw [compile_to_instrs_Sub1, execInstrs_append, ha]
        rfl
      · show wrap32 (wrap64 (a - 1)) = wrap32 (interp e - 1)
        rw [← hwa, wrap32_wrap64_sub_one]

/-- Every instruction the selector emits encodes successfully. -/
theorem compile_asm_isSome (e : Expr) :
    ∀ i ∈ compile_to_instrs e, (instr_to_asm i).isSome = true := by
  obtain ⟨n, rest, heq, hall⟩ := compile_shape e
  intro i hi
  rw [heq] at hi
  rcases List.mem_cons.1 hi with h | h
  · subst h; rfl
  · rcases hall i h with h1 | h1 <;> (subst h1; rfl)

theorem mapM_asm_total :
    ∀ (l : List Instr), (∀ i ∈ l, (instr_to_asm i).isSome = true) →
      ∃ ops, l.mapM instr_to_asm = some ops := by
  intro l
  induction l with
  | nil => intro _; exact ⟨[], rfl⟩
  | cons i rest ih =>
      intro h
      obtain ⟨o, ho⟩ :=
        Option.isSome_iff_exists.mp (h i (List.mem_cons_self i rest))
      obtain ⟨os, hos⟩ := ih (fun j hj => h j (List.mem_cons_of_mem _ hj))
      exact ⟨o :: os, by rw [List.mapM_cons, ho, hos]; rfl⟩

theorem compile_mapM (e : Expr) :
    ∃ ops, (compile_to_instrs e).mapM instr_to_asm = some ops :=
  mapM_asm_total (compile_to_instrs e) (compile_asm_isSome e)

/-- Running the encoded buffer (operations plus a final `ret`) returns
the low 32 bits of whatever the abstract instruction sequence leaves in
the accumulator. -/
theorem runJit_ops :
    ∀ (l : List Instr) (ops : List X64Op),
      l.mapM instr_to_asm = some ops → ∀ acc,
        runJit (ops.map JInstr.op ++ [JInstr.ret]) acc =
          (execInstrs l acc).map wrap32 := by
  intro l
  induction l with
  | nil =>
      intro ops h acc
      simp only [List.mapM_nil, pure, Option.some.injEq] at h
      subst h
      rfl
  | cons i rest ih =>
      intro ops h acc
      rw [List.mapM_cons] at h
      cases hasm : instr_to_asm i with
      | none => rw [hasm] at h; simp at h
      | some o =>
          rw [hasm] at h
          cases hrest : rest.mapM instr_to_asm with
          | none => rw [hrest] at h; simp at h
          | some os =>
              rw [hrest] at h
              simp at h
              subst h
              show runJit (os.map JInstr.op ++ [JInstr.ret]) (stepOp o acc)
                  = (execInstrs (i :: rest) acc).map wrap32
              rw [ih os hrest (stepOp o acc)]
              congr 1
              show execInstrs rest (stepOp o acc)
                  = execInstrs (i :: rest) acc
              have hstep : stepInstr i acc = some (stepOp o acc) := by
                rw [stepInstr, hasm]
                rfl
              rw [execInstrs, hstep]

/-! ### Claims -/

/-- C1: for every well-formed input expression, executing the
JIT-compiled instruction sequence returns the same integer as the
reference interpreter applied to the AST: run from any (undefined)
initial accumulator value, the committed buffer built from
`compile_to_instrs` returns `interp e`. -/
theorem claim_C1_jit_matches_interp (e : Expr) (hwf : e.wf) (a0 : Int) :
    ∃ buf, mainBuffer e = some buf ∧ runJit buf a0 = some (interp e) := by
  obtain ⟨ops, hops⟩ := compile_mapM e
  refine ⟨ops.map JInstr.op ++ [JInstr.ret], ?_, ?_⟩
  · rw [mainBuffer, hops]
    rfl
  · rw [runJit_ops _ ops hops a0]
    obtain ⟨a, ha, hwa⟩ := exec_compile e a0 hwf
    rw [ha]
    show some (wrap32 a) = some (interp e)
    rw [hwa]

/-- Witness for C1 at the example of the specification: the input tree
`(add1 (add1 5))` is well formed, the JIT path returns exactly what the
interpreter computes, and that value is `7`. -/
theorem claim_C1_witness :
    Expr.wf (.Add1 (.Add1 (.Num 5))) ∧
    (∃ buf, mainBuffer (.Add1 (.Add1 (.Num 5))) = some buf ∧
      runJit buf 0 = some (interp (.Add1 (.Add1 (.Num 5))))) ∧
    interp (.Add1 (.Add1 (.Num 5))) = 7 :=
  ⟨by decide, claim_C1_jit_matches_interp (.Add1 (.Add1 (.Num 5))) (by decide) 0,
    by decide⟩

/-- C2: instruction selection is post-order structural recursion with
exactly these outputs: a literal becomes a single `mov`, `Add1` and
`Sub1` append one `add RAX, 1` or `sub RAX, 1` after the code of the
subexpression; in particular `(sub1 (sub1 10))` compiles to
`[mov RAX 10, sub RAX 1, sub RAX 1]` and evaluates to `8`. -/
theorem claim_C2_selection_equations :
    (∀ n : Int, compile_to_instrs (.Num n) = [.IMov (.Reg .RAX) (.Imm n)]) ∧
    (∀ e : Expr, compile_to_instrs (.Add1 e) =
      compile_to_instrs e ++ [.IAdd (.Reg .RAX) (.Imm 1)]) ∧
    (∀ e : Expr, compile_to_instrs (.Sub1 e) =
      compile_to_instrs e ++ [.ISub (.Reg .RAX) (.Imm 1)]) ∧
    compile_to_instrs (.Sub1 (.Sub1 (.Num 10))) =
      [.IMov (.Reg .RAX) (.Imm 10), .ISub (.Reg .RAX) (.Imm 1),
        .ISub (.Reg .RAX) (.Imm 1)] ∧
    interp (.Sub1 (.Sub1 (.Num 10))) = 8 :=
  ⟨compile_to_instrs_Num, compile_to_instrs_Add1, compile_to_instrs_Sub1,
    rfl, by decide⟩

/-- C3: in every sequence produced by the instruction selector, no
instruction reads the accumulator before some earlier instruction has
written it, and the first instruction is always a `mov` of a literal
into `RAX`. -/
theorem claim_C3_no_read_before_write (e : Expr) :
    (∃ n, (compile_to_instrs e).head? = some (.IMov (.Reg .RAX) (.Imm n))) ∧
    noReadBeforeWrite (compile_to_instrs e) := by
  obtain ⟨n, rest, heq, hall⟩ := compile_shape e
  constructor
  · exact ⟨n, by rw [heq]; rfl⟩
  · intro i instr hget hread
    rw [heq] at hget
    cases i with
    | zero =>
        rw [show (Instr.IMov (Val.Reg Reg.RAX) (Val.Imm n) :: rest).get? 0
            = some (Instr.IMov (Val.Reg Reg.RAX) (Val.Imm n)) from rfl] at hget
        injection hget with hinstr
        subst hinstr
        simp [readsRAX, valIsRAX] at hread
    | succ k =>
        refine ⟨0, .IMov (.Reg .RAX) (.Imm n), Nat.succ_pos k, ?_, rfl⟩
        rw [heq]
        rfl

/-- Witness for C3 at a concrete expression. -/
theorem claim_C3_witness :
    (∃ n, (compile_to_instrs (.Add1 (.Num 5))).head?
      = some (.IMov (.Reg .RAX) (.Imm n))) ∧
    noReadBeforeWrite (compile_to_instrs (.Add1 (.Num 5))) :=
  claim_C3_no_read_before_write (.Add1 (.Num 5))

/-- C4: syntax-tree building of a bare integer atom yields `Num n` when
`n` fits in a signed 32-bit integer and fails with `RangeError` (not a
`SyntaxError`, and not success) when it does not; in particular the
literal `9999999999` fails with `RangeError`. -/
theorem claim_C4_literal_range :
    (∀ n : Int, -2147483648 ≤ n → n < 2147483648 →
      parse_expr (.atom (.I n)) = .ok (.Num n)) ∧
    (∀ n : Int, (n < -2147483648 ∨ 2147483648 ≤ n) →
      parse_expr (.atom (.I n)) = .error .RangeError) ∧
    parse_expr (.atom (.I 9999999999)) = .error .RangeError := by
  refine ⟨?_, ?_, rfl⟩
  · intro n h1 h2
    simp [parse_expr, h1, h2]
  · intro n h
    have hno : ¬(-2147483648 ≤ n ∧ n < 2147483648) := by omega
    simp [parse_expr, hno]

/-- Witness for C4: the literal `7` parses, the literal `9999999999`
fails with `RangeError`. -/
theorem claim_C4_witness :
    parse_expr (.atom (.I 7)) = .ok (.Num 7) ∧
    parse_expr (.atom (.I 9999999999)) = .error .RangeError :=
  ⟨claim_C4_literal_range.1 7 (by decide) (by decide),
    claim_C4_literal_range.2.2⟩

/-- C5 counterexample: the syntax errors do not name the offending node.
The panic message is the fixed string `parse error`: the malformed tree
`(add1 1 2)` and the entirely different offending atom `x` produce the
very same error value, so the error cannot name the node. -/
theorem claim_C5_counterexample :
    parse_expr (.list [.atom (.S "add1"), .atom (.I 1), .atom (.I 2)])
      = .error (.SyntaxError "parse error") ∧
    parse_expr (.atom (.S "x")) = .error (.SyntaxError "parse error") :=
  ⟨rfl, rfl⟩

/-- C5 (amended): syntax-tree building fails with a `SyntaxError`
carrying the fixed message `parse error` — not naming the offending
node — for every input tree that is not a bare integer atom or a
two-element list headed by `add1` or `sub1`, and succeeds in no such
case. -/
theorem claim_C5_syntax_error (s : Sexp) (h : ¬ topShapeOK s) :
    parse_expr s = .error (.SyntaxError "parse error") := by
  cases s with
  | atom a =>
      cases a with
      | I n => exact absurd (Or.inl ⟨n, rfl⟩) h
      | S str => rfl
      | F => rfl
  | list l =>
      cases l with
      | nil => rfl
      | cons x xs =>
          cases xs with
          | nil =>
              cases x with
              | atom a => cases a <;> rfl
              | list l2 => rfl
          | cons y ys =>
              cases ys with
              | cons z zs => simp [parse_expr]
              | nil =>
                  cases x with
                  | list l2 => rfl
                  | atom a =>
                      cases a with
                      | I n => rfl
                      | F => rfl
                      | S op =>
                          by_cases h1 : op = "add1"
                          · exact absurd (Or.inr (Or.inl ⟨y, by rw [h1]⟩)) h
                          · by_cases h2 : op = "sub1"
                            · exact absurd
                                (Or.inr (Or.inr ⟨y, by rw [h2]⟩)) h
                            · simp [parse_expr, h1, h2]

/-- Witness for the amended C5 at the malformed tree `(add1 1 2)`. -/
theorem claim_C5_witness :
    parse_expr (.list [.atom (.S "add1"), .atom (.I 1), .atom (.I 2)])
      = .error (.SyntaxError "parse error") :=
  claim_C5_syntax_error
    (.list [.atom (.S "add1"), .atom (.I 1), .atom (.I 2)])
    (by
      intro h
      rcases h with ⟨n, hn⟩ | ⟨e, he⟩ | ⟨e, he⟩
      · exact absurd hn (by simp)
      · exact absurd he (by simp)
      · exact absurd he (by simp))

/-- C6: the assembly rendering maps each instruction to one line with
mnemonics `mov`, `add`, `sub`, a register operand rendered as `RAX` and
an immediate operand rendered as `DWORD <value>`, joins lines with
newlines, and wraps the block in the fixed compilation-unit template
(`section .text`, `global our_code_starts_here`, the label, one line per
instruction, a trailing `ret`); `(sub1 (sub1 10))` renders as the three
expected lines. -/
theorem claim_C6_rendering :
    val_to_str (.Reg .RAX) = "RAX" ∧
    (∀ n : Int, val_to_str (.Imm n) = "DWORD " ++ toString n) ∧
    (∀ v1 v2, instr_to_str (.IMov v1 v2)
      = "mov " ++ val_to_str v1 ++ ", " ++ val_to_str v2) ∧
    (∀ v1 v2, instr_to_str (.IAdd v1 v2)
      = "add " ++ val_to_str v1 ++ ", " ++ val_to_str v2) ∧
    (∀ v1 v2, instr_to_str (.ISub v1 v2)
      = "sub " ++ val_to_str v1 ++ ", " ++ val_to_str v2) ∧
    (∀ cmds, instrs_to_str cmds
      = String.intercalate "\n" (cmds.map instr_to_str)) ∧
    (∀ s, asm_program s =
      "\nsection .text\nglobal our_code_starts_here\nour_code_starts_here:\n  "
        ++ s ++ "\n  ret\n") ∧
    instrs_to_str (compile_to_instrs (.Sub1 (.Sub1 (.Num 10))))
      = "mov RAX, DWORD 10\nsub RAX, DWORD 1\nsub RAX, DWORD 1" ∧
    asm_program (instrs_to_str (compile_to_instrs (.Sub1 (.Sub1 (.Num 10)))))
      = "\nsection .text\nglobal our_code_starts_here\nour_code_starts_here:\n  mov RAX, DWORD 10\nsub RAX, DWORD 1\nsub RAX, DWORD 1\n  ret\n" :=
  ⟨rfl, fun _ => rfl, fun _ _ => rfl, fun _ _ => rfl, fun _ _ => rfl,
    fun _ => rfl, fun _ => rfl, rfl, rfl⟩

/-- C7 counterexample: the interpreter is `i32`-valued, so the equation
`evaluate(Increment(e)) = 1 + evaluate(e)` fails over the integers at
`Increment(Literal(2147483647))`: the Rust `i32` addition wraps to
`-2147483648` instead of `2147483648`. -/
theorem claim_C7_counterexample :
    interp (.Add1 (.Num 2147483647)) = -2147483648 ∧
    interp (.Add1 (.Num 2147483647)) ≠ 1 + interp (.Num 2147483647) := by
  constructor
  · decide
  · decide

/-- C7 (amended): the reference interpreter is pure and total over all
expressions, and satisfies the defining equations in wrapping `i32`
arithmetic: `interp (Num n) = n`, `interp (Add1 e) = wrap32 (1 + interp
e)`, `interp (Sub1 e) = wrap32 (interp e - 1)`; the unwrapped equations
of the claim hold exactly when the mathematical result fits in the
signed 32-bit range. -/
theorem claim_C7_interp_equations :
    (∀ n : Int, interp (.Num n) = n) ∧
    (∀ e : Expr, interp (.Add1 e) = wrap32 (1 + interp e)) ∧
    (∀ e : Expr, interp (.Sub1 e) = wrap32 (interp e - 1)) ∧
    (∀ e : Expr, -2147483648 ≤ 1 + interp e → 1 + interp e < 2147483648 →
      interp (.Add1 e) = 1 + interp e) ∧
    (∀ e : Expr, -2147483648 ≤ interp e - 1 → interp e - 1 < 2147483648 →
      interp (.Sub1 e) = interp e - 1) := by
  refine ⟨fun n => rfl, fun e => rfl, fun e => rfl, ?_, ?_⟩
  · intro e h1 h2
    show wrap32 (1 + interp e) = 1 + interp e
    exact wrap32_eq_self h1 h2
  · intro e h1 h2
    show wrap32 (interp e - 1) = interp e - 1
    exact wrap32_eq_self h1 h2

/-- Witness for the amended C7 at a concrete expression where no
wrap-around occurs. -/
theorem claim_C7_witness :
    interp (.Add1 (.Num 5)) = 1 + interp (.Num 5) :=
  claim_C7_interp_equations.2.2.2.1 (.Num 5) (by decide) (by decide)

/-- C8: every instruction produced by the instruction selector has a
register destination and an immediate source, so the machine-code
emitter encodes every produced instruction (the `Unknown instruction
format` panic is unreachable) and `main` always obtains a committed
buffer. -/
theorem claim_C8_no_unsupported (e : Expr) :
    (compile_to_instrs e).all supportedShape = true ∧
    (compile_to_instrs e).all (fun i => (instr_to_asm i).isSome) = true ∧
    (mainBuffer e).isSome = true := by
  refine ⟨?_, ?_, ?_⟩
  · rw [List.all_eq_true]
    intro i hi
    obtain ⟨n, rest, heq, hall⟩ := compile_shape e
    rw [heq] at hi
    rcases List.mem_cons.1 hi with h | h
    · subst h; rfl
    · rcases hall i h with h1 | h1 <;> (subst h1; rfl)
  · rw [List.all_eq_true]
    intro i hi
    exact compile_asm_isSome e i hi
  · obtain ⟨ops, hops⟩ := compile_mapM e
    rw [mainBuffer, hops]
    rfl

/-- C9: after the alter operation replaces the start of the code buffer
with `mov rax, K` followed by `ret` and the buffer is recommitted,
executing the re-acquired entry point yields exactly `K`, whatever the
buffer previously held and whatever the initial accumulator value. -/
theorem claim_C9_alter (K : Int) (h1 : -2147483648 ≤ K)
    (h2 : K < 2147483648) (oldBuf : List JInstr) (a0 : Int) :
    runJit (alterBuffer K oldBuf) a0 = some K := by
  show some (wrap32 K) = some K
  rw [wrap32_eq_self h1 h2]

/-- Witness for C9: a buffer that used to compute `6` is altered to
return `21` directly. -/
theorem claim_C9_witness :
    runJit (alterBuffer 21
      [JInstr.op (.movRegImm .RAX 5), JInstr.op (.addRegImm .RAX 1),
        JInstr.ret]) 0 = some 21 :=
  claim_C9_alter 21 (by decide) (by decide)
    [JInstr.op (.movRegImm .RAX 5), JInstr.op (.addRegImm .RAX 1),
      JInstr.ret] 0

/-- C10: every compiled sequence contains exactly one `mov`, located at
index 0, and every later instruction is an `add` or `sub` whose
destination is `RAX` and whose source is exactly the immediate `1`. -/
theorem claim_C10_single_mov (e : Expr) :
    ∃ n rest, compile_to_instrs e = .IMov (.Reg .RAX) (.Imm n) :: rest ∧
      (compile_to_instrs e).countP isMovInstr = 1 ∧
      rest.all (fun i => i == Instr.IAdd (.Reg .RAX) (.Imm 1)
        || i == Instr.ISub (.Reg .RAX) (.Imm 1)) = true := by
  obtain ⟨n, rest, heq, hall⟩ := compile_shape e
  have hz : rest.countP isMovInstr = 0 := by
    rw [List.countP_eq_zero]
    intro a ha
    rcases hall a ha with h | h <;> (subst h; simp [isMovInstr])
  refine ⟨n, rest, heq, ?_, ?_⟩
  · rw [heq, List.countP_cons_of_pos, hz]
    rfl
  · rw [List.all_eq_true]
    intro i hi
    rcases hall i hi with h | h <;> subst h <;> rfl
